import Mathlib

/-!
Verification of the timer core of a command-line time tracker (`tt.py`).

The development shallowly embeds the core of the program:

* `round_seconds_to_15min` — the duration-rounding policy (tt.py lines 41-48);
* `stop_current` — committing the running session to history (lines 62-92);
* `cmd_start` — starting a session, implicitly stopping a running one
  (lines 342-411, restricted to its store-transforming core: customer,
  project and note are taken already resolved, as the interactive
  resolution layer produces them);
* `cmd_note` — appending a note to the running session (lines 413-431);
* `cmd_report` — the report aggregation (lines 440-538, restricted to the
  data it computes: the grouped summary, the grand total and the
  running-timer flag, leaving out the printing).

Timestamps (Python `time.time()` floats) are modelled as rationals `ℚ`;
durations billed in whole seconds are `ℤ`.  Python dicts keyed by
customer/project pairs and by task labels are modelled as association
lists with unique keys, updated in place and extended at the end exactly
as insertion-ordered Python dicts are.  The local-time "HH:MM" formatter
(`time.strftime`) is an explicit function parameter `fmt`.
-/

namespace TT

/-- Embedding of `round_seconds_to_15min` (tt.py lines 41-48):
`if seconds <= 0: return 0`, `minutes = seconds / 60`,
`rounded_minutes = math.ceil(minutes / 15) * 15`,
`return int(rounded_minutes * 60)`. -/
def round_seconds_to_15min (seconds : ℚ) : ℤ :=
  if seconds ≤ 0 then 0
  else
    let minutes : ℚ := seconds / 60
    let rounded_minutes : ℤ := ⌈minutes / 15⌉ * 15
    rounded_minutes * 60

lemma round_seconds_to_15min_of_pos (q : ℚ) (hq : ¬ q ≤ 0) :
    round_seconds_to_15min q = ⌈q / 900⌉ * 900 := by
  simp only [round_seconds_to_15min, if_neg hq]
  have h : q / 60 / 15 = q / 900 := by ring
  rw [h]; ring

lemma le_round_seconds (s : ℤ) (hs : 0 < s) :
    s ≤ round_seconds_to_15min (s : ℚ) := by
  have hq : ¬ ((s : ℚ) ≤ 0) := by
    push_neg; exact_mod_cast hs
  rw [round_seconds_to_15min_of_pos _ hq]
  have h1 : (s : ℚ) / 900 ≤ (⌈(s : ℚ) / 900⌉ : ℚ) := Int.le_ceil _
  have h2 : (s : ℚ) ≤ (⌈(s : ℚ) / 900⌉ : ℚ) * 900 := by
    rw [div_le_iff₀ (by norm_num : (0:ℚ) < 900)] at h1
    exact h1
  exact_mod_cast h2

lemma round_seconds_min (s m : ℤ) (hs : 0 < s) (hdvd : (900 : ℤ) ∣ m)
    (hsm : s ≤ m) : round_seconds_to_15min (s : ℚ) ≤ m := by
  have hq : ¬ ((s : ℚ) ≤ 0) := by
    push_neg; exact_mod_cast hs
  rw [round_seconds_to_15min_of_pos _ hq]
  obtain ⟨k, hk⟩ := hdvd
  have hsk : (s : ℚ) / 900 ≤ (k : ℚ) := by
    rw [div_le_iff₀ (by norm_num : (0:ℚ) < 900)]
    have : (s : ℚ) ≤ ((900 * k : ℤ) : ℚ) := by exact_mod_cast hk ▸ hsm
    push_cast at this
    linarith
  have hck : ⌈(s : ℚ) / 900⌉ ≤ k := Int.ceil_le.mpr hsk
  calc ⌈(s : ℚ) / 900⌉ * 900 ≤ k * 900 :=
        mul_le_mul_of_nonneg_right hck (by norm_num)
    _ = m := by rw [hk]; ring

/-- C1: for every integer input, `round_seconds_to_15min` returns 0 on
inputs `≤ 0`, and on positive inputs returns the smallest non-negative
multiple of 900 that is `≥` the input; consequently for all `s ≥ 0` the
result is `≥ s` and divisible by 900, and an exact multiple of 900 is
returned unchanged. -/
theorem round_seconds_to_15min_correct (s : ℤ) :
    (s ≤ 0 → round_seconds_to_15min (s : ℚ) = 0) ∧
    (0 < s → 0 ≤ round_seconds_to_15min (s : ℚ) ∧
      (900 : ℤ) ∣ round_seconds_to_15min (s : ℚ) ∧
      s ≤ round_seconds_to_15min (s : ℚ) ∧
      (∀ m : ℤ, (900 : ℤ) ∣ m → s ≤ m →
        round_seconds_to_15min (s : ℚ) ≤ m)) ∧
    (0 ≤ s → s ≤ round_seconds_to_15min (s : ℚ) ∧
      round_seconds_to_15min (s : ℚ) % 900 = 0) ∧
    (0 ≤ s → (900 : ℤ) ∣ s → round_seconds_to_15min (s : ℚ) = s) := by
  have hzero : s ≤ 0 → round_seconds_to_15min (s : ℚ) = 0 := by
    intro h
    have : (s : ℚ) ≤ 0 := by exact_mod_cast h
    simp [round_seconds_to_15min, this]
  have hdvd : 0 < s → (900 : ℤ) ∣ round_seconds_to_15min (s : ℚ) := by
    intro hs
    have hq : ¬ ((s : ℚ) ≤ 0) := by
      push_neg; exact_mod_cast hs
    rw [round_seconds_to_15min_of_pos _ hq]
    exact dvd_mul_left 900 _
  refine ⟨hzero, ?_, ?_, ?_⟩
  · intro hs
    refine ⟨le_trans (le_of_lt hs) (le_round_seconds s hs), hdvd hs,
      le_round_seconds s hs, fun m hm hsm => round_seconds_min s m hs hm hsm⟩
  · intro hs
    rcases lt_or_eq_of_le hs with hpos | hzero'
    · exact ⟨le_round_seconds s hpos, Int.emod_eq_zero_of_dvd (hdvd hpos)⟩
    · subst hzero'
      rw [hzero le_rfl]
      norm_num
  · intro hs hmul
    rcases lt_or_eq_of_le hs with hpos | hzero'
    · exact le_antisymm (round_seconds_min s s hpos hmul le_rfl)
        (le_round_seconds s hpos)
    · subst hzero'
      exact hzero le_rfl

/-- Witness for C1 at concrete inputs: 1000 seconds rounds up to a value
that is at least 1000 and divisible by 900, and -100 rounds to 0. -/
theorem round_seconds_to_15min_correct_witness :
    (0:ℤ) ≤ 1000 ∧
    (1000:ℤ) ≤ round_seconds_to_15min ((1000 : ℤ) : ℚ) ∧
    round_seconds_to_15min ((1000 : ℤ) : ℚ) % 900 = 0 ∧
    round_seconds_to_15min ((-100 : ℤ) : ℚ) = 0 :=
  ⟨by norm_num,
   ((round_seconds_to_15min_correct 1000).2.2.1 (by norm_num)).1,
   ((round_seconds_to_15min_correct 1000).2.2.1 (by norm_num)).2,
   (round_seconds_to_15min_correct (-100)).1 (by norm_num)⟩

/-- A running session (the value of the `"current"` key of the data file).
`notes` is an `Option` because the underlying JSON object may lack the
`"notes"` key: `stop_current` reads it as `c.get("notes", [])` and
`cmd_note` inserts it on demand (tt.py lines 74 and 426-427). -/
structure Session where
  customer : String
  project : String
  start_timestamp : ℚ
  notes : Option (List String)
deriving DecidableEq

/-- A committed history entry (tt.py lines 76-84).  `raw_seconds` is the
value the code stores: the float difference `end_time - start_time`
(clamped at 0), modelled as a rational. -/
structure HistoryEntry where
  customer : String
  project : String
  duration_seconds : ℤ
  raw_seconds : ℚ
  notes : List String
  start_str : String
  end_str : String
deriving DecidableEq

/-- The persisted data file `{"current": ..., "history": [...]}`. -/
structure Store where
  current : Option Session
  history : List HistoryEntry
deriving DecidableEq

/-- Embedding of `stop_current` (tt.py lines 62-92).  `fmt` stands for
`time.strftime("%H:%M", time.localtime(.))`; `now` for `time.time()`.
The returned `Bool` is the function's Python return value (`True` after
committing, `False` when nothing was running). -/
def stop_current (fmt : ℚ → String) (now : ℚ) (data : Store) : Store × Bool :=
  match data.current with
  | some c =>
      let raw_duration := now - c.start_timestamp
      let raw_duration := if raw_duration < 0 then 0 else raw_duration
      let billed_duration := round_seconds_to_15min raw_duration
      let notes := c.notes.getD []
      let entry : HistoryEntry :=
        { customer := c.customer, project := c.project,
          duration_seconds := billed_duration, raw_seconds := raw_duration,
          notes := notes,
          start_str := fmt c.start_timestamp, end_str := fmt now }
      ({ current := none, history := data.history ++ [entry] }, true)
  | none => (data, false)

/-- The `notes_list` that `cmd_start` builds (tt.py lines 395-397):
`notes_list = []; if note: notes_list.append(note)` — `None` and the
empty string are both falsy. -/
def initialNotes : Option String → List String
  | some n => if n = "" then [] else [n]
  | none => []

/-- Embedding of the store-transforming core of `cmd_start`
(tt.py lines 342-411) after the customer/project/note have been resolved.
When the resolution yields no customer or project the command returns
before `save_json`, so the persisted store is unchanged — the guard is
placed first here because the in-memory implicit stop is discarded in
that case. -/
def cmd_start (fmt : ℚ → String) (now : ℚ) (customer project : String)
    (note : Option String) (data : Store) : Store :=
  if customer = "" ∨ project = "" then data
  else
    let data1 := if data.current.isSome then (stop_current fmt now data).1 else data
    { data1 with
      current := some { customer := customer, project := project,
                        start_timestamp := now,
                        notes := some (initialNotes note) } }

/-- Failure outcomes of `cmd_note`, matched to the spec's error taxonomy:
`NoActiveSession` is the "No timer running." early return,
`EmptyNote` the "Note cannot be empty." early return. -/
inductive NoteError where
  | NoActiveSession
  | EmptyNote
deriving DecidableEq

/-- Embedding of `cmd_note` (tt.py lines 413-431).  `args` is the word
list the note text is joined from (`" ".join(args)`); the notes key is
created as `[]` when absent before the append. -/
def cmd_note (args : List String) (data : Store) : Except NoteError Store :=
  match data.current with
  | none => .error .NoActiveSession
  | some c =>
      match args with
      | [] => .error .EmptyNote
      | _ =>
          let new_note := String.intercalate " " args
          let notes := c.notes.getD []
          .ok { data with
                current := some { c with notes := some (notes ++ [new_note]) } }

/-- The persisted result of a `cmd_note` invocation: `save_json` runs only
on the success path, so on either failure the stored data is unchanged. -/
def cmd_note_persisted (args : List String) (data : Store) : Store :=
  match cmd_note args data with
  | .ok d => d
  | .error _ => data

lemma stop_current_running (fmt : ℚ → String) (now : ℚ) (data : Store)
    (c : Session) (h : data.current = some c) :
    stop_current fmt now data =
      ({ current := none,
         history := data.history ++
           [{ customer := c.customer, project := c.project,
              duration_seconds :=
                round_seconds_to_15min (max 0 (now - c.start_timestamp)),
              raw_seconds := max 0 (now - c.start_timestamp),
              notes := c.notes.getD [],
              start_str := fmt c.start_timestamp, end_str := fmt now }] },
       true) := by
  have hmax : (if now - c.start_timestamp < 0 then 0 else now - c.start_timestamp)
      = max 0 (now - c.start_timestamp) := by
    rcases lt_or_le (now - c.start_timestamp) 0 with h1 | h1
    · rw [if_pos h1, max_eq_left h1.le]
    · rw [if_neg (not_lt.mpr h1), max_eq_right h1]
  simp only [stop_current, h, hmax]

lemma round_seconds_nonpos (q : ℚ) (hq : q ≤ 0) :
    round_seconds_to_15min q = 0 := by
  simp [round_seconds_to_15min, hq]

/-- C3: stopping a running session commits an entry whose raw seconds are
`max 0 (now - start_timestamp)`; under clock regression both the raw and
the billed duration are 0, and otherwise the raw seconds equal the
elapsed time and the billed duration its 15-minute round-up; the session
is cleared. -/
theorem stop_running_clamps (fmt : ℚ → String) (now : ℚ) (data : Store)
    (c : Session) (h : data.current = some c) :
    ((stop_current fmt now data).2 = true ∧
     (stop_current fmt now data).1.current = none ∧
     (stop_current fmt now data).1.history = data.history ++
       [{ customer := c.customer, project := c.project,
          duration_seconds :=
            round_seconds_to_15min (max 0 (now - c.start_timestamp)),
          raw_seconds := max 0 (now - c.start_timestamp),
          notes := c.notes.getD [],
          start_str := fmt c.start_timestamp, end_str := fmt now }]) ∧
    (now < c.start_timestamp →
      round_seconds_to_15min (max 0 (now - c.start_timestamp)) = 0 ∧
      max 0 (now - c.start_timestamp) = 0) ∧
    (c.start_timestamp ≤ now →
      max 0 (now - c.start_timestamp) = now - c.start_timestamp) := by
  rw [stop_current_running fmt now data c h]
  refine ⟨⟨rfl, rfl, rfl⟩, ?_, ?_⟩
  · intro hlt
    have hneg : now - c.start_timestamp ≤ 0 := by linarith
    have hm : max 0 (now - c.start_timestamp) = 0 := max_eq_left hneg
    exact ⟨by rw [hm]; exact round_seconds_nonpos 0 le_rfl, hm⟩
  · intro hle
    exact max_eq_right (by linarith)

/-- Formatter stub used for concrete witnesses (the claims never depend
on the "HH:MM" rendering). -/
def fmt0 : ℚ → String := fun _ => ""

def exSession3 : Session :=
  { customer := "Test", project := "Proj", start_timestamp := 2000,
    notes := some [] }

def exStore3 : Store := { current := some exSession3, history := [] }

/-- Witness for C3: the spec's regression example `start_timestamp = 2000,
now = 1000` commits `duration_seconds = 0` and `raw_seconds = 0`. -/
theorem stop_running_clamps_witness :
    (stop_current fmt0 1000 exStore3).2 = true ∧
    round_seconds_to_15min (max 0 ((1000 : ℚ) - exSession3.start_timestamp)) = 0 ∧
    max 0 ((1000 : ℚ) - exSession3.start_timestamp) = 0 :=
  have h := stop_running_clamps fmt0 1000 exStore3 exSession3 rfl
  have hreg := h.2.1 (by norm_num [exSession3])
  ⟨h.1.1, hreg.1, hreg.2⟩

/-- C4: stopping an idle store returns the store completely unchanged
together with the `false` signal, which is distinguishable from the
`true` a successful stop returns and is not an error. -/
theorem stop_idle_unchanged (fmt : ℚ → String) (now : ℚ) (data : Store)
    (h : data.current = none) :
    stop_current fmt now data = (data, false) ∧
    (stop_current fmt now data).2 ≠ true := by
  refine ⟨?_, ?_⟩ <;> simp [stop_current, h]

def exStoreIdle : Store := { current := none, history := [] }

/-- Witness for C4 on a concrete idle store. -/
theorem stop_idle_unchanged_witness :
    stop_current fmt0 5 exStoreIdle = (exStoreIdle, false) ∧
    (stop_current fmt0 5 exStoreIdle).2 ≠ true :=
  stop_idle_unchanged fmt0 5 exStoreIdle rfl

/-- C2: starting on a running store first commits exactly one history
entry (history grows by exactly 1) and then installs a fresh session
carrying the new customer and project, `start_timestamp = now`, and
notes `[note]` for a given non-empty note and `[]` otherwise; given
resolved (non-empty) customer and project strings the operation is a
total function on running and idle stores alike. -/
theorem start_running_commits_one (fmt : ℚ → String) (now : ℚ)
    (customer project : String) (note : Option String) (data : Store)
    (s : Session) (hrun : data.current = some s)
    (hc : customer ≠ "") (hp : project ≠ "") :
    (cmd_start fmt now customer project note data).history.length
        = data.history.length + 1 ∧
    (cmd_start fmt now customer project note data).current =
      some { customer := customer, project := project,
             start_timestamp := now, notes := some (initialNotes note) } ∧
    (∀ n, note = some n → n ≠ "" → initialNotes note = [n]) ∧
    (note = none → initialNotes note = []) := by
  have hguard : ¬ (customer = "" ∨ project = "") := by
    rintro (h | h) <;> [exact hc h; exact hp h]
  have hsome : data.current.isSome = true := by rw [hrun]; rfl
  refine ⟨?_, ?_, ?_, ?_⟩
  · simp only [cmd_start, if_neg hguard, hsome, if_pos,
      stop_current_running fmt now data s hrun]
    simp
  · simp only [cmd_start, if_neg hguard, hsome, if_pos]
  · rintro n rfl hn
    simp [initialNotes, hn]
  · rintro rfl
    rfl

def exSession2 : Session :=
  { customer := "Old", project := "OldP", start_timestamp := 100,
    notes := some ["prior"] }

def exStore2 : Store := { current := some exSession2, history := [] }

/-- Witness for C2: starting "Acme"/"Web" with note "fix" on a running
store grows the history from 0 to 1 and installs the new session with
notes ["fix"]. -/
theorem start_running_commits_one_witness :
    (cmd_start fmt0 200 "Acme" "Web" (some "fix") exStore2).history.length
        = exStore2.history.length + 1 ∧
    (cmd_start fmt0 200 "Acme" "Web" (some "fix") exStore2).current =
      some { customer := "Acme", project := "Web", start_timestamp := 200,
             notes := some (initialNotes (some "fix")) } ∧
    initialNotes (some "fix") = ["fix"] :=
  have h := start_running_commits_one fmt0 200 "Acme" "Web" (some "fix")
    exStore2 exSession2 rfl (by decide) (by decide)
  ⟨h.1, h.2.1, h.2.2.1 "fix" rfl (by decide)⟩

/-- C5 (amended): `cmd_note` fails with `NoActiveSession` on an idle
store and with `EmptyNote` exactly when the argument list is empty; any
supplied text — including whitespace-only text — is joined with spaces
and appended after the prior notes; on both failures the persisted store
is unchanged. -/
theorem cmd_note_spec (args : List String) (data : Store) :
    (data.current = none →
      cmd_note args data = .error .NoActiveSession ∧
      cmd_note_persisted args data = data) ∧
    (∀ c, data.current = some c → args = [] →
      cmd_note args data = .error .EmptyNote ∧
      cmd_note_persisted args data = data) ∧
    (∀ c, data.current = some c → args ≠ [] →
      cmd_note args data = .ok { data with
        current := some { c with
          notes := some (c.notes.getD [] ++ [String.intercalate " " args]) } }) := by
  refine ⟨?_, ?_, ?_⟩
  · intro h
    constructor <;> simp [cmd_note, cmd_note_persisted, h]
  · rintro c h rfl
    constructor <;> simp [cmd_note, cmd_note_persisted, h]
  · intro c h hne
    match args with
    | [] => exact absurd rfl hne
    | a :: rest => simp [cmd_note, h]

def exSession5 : Session :=
  { customer := "A", project := "B", start_timestamp := 0,
    notes := some ["old"] }

def exStore5 : Store := { current := some exSession5, history := [] }

/-- Witness for C5 (amended): on a running store, an empty argument list
is rejected with `EmptyNote`, and the text "x" is appended after the
prior note. -/
theorem cmd_note_spec_witness :
    (cmd_note [] exStore5 = .error .EmptyNote ∧
     cmd_note_persisted [] exStore5 = exStore5) ∧
    cmd_note ["x"] exStore5 = .ok { exStore5 with
      current := some { exSession5 with
        notes := some (exSession5.notes.getD [] ++
          [String.intercalate " " ["x"]]) } } :=
  ⟨(cmd_note_spec [] exStore5).2.1 exSession5 rfl rfl,
   (cmd_note_spec ["x"] exStore5).2.2 exSession5 rfl (by decide)⟩

/-- C5 counterexample: a whitespace-only (blank) note text is NOT
rejected with `EmptyNote` — `cmd_note` only tests for an empty argument
list, so the blank text " " is appended as a note. -/
theorem cmd_note_blank_not_rejected :
    cmd_note [" "] exStore5 ≠ .error .EmptyNote ∧
    cmd_note [" "] exStore5 = .ok
      { current := some { customer := "A", project := "B",
                          start_timestamp := 0,
                          notes := some ["old", " "] },
        history := [] } := by
  have heq : cmd_note [" "] exStore5 = .ok
      { current := some { customer := "A", project := "B",
                          start_timestamp := 0,
                          notes := some ["old", " "] },
        history := [] } := rfl
  rw [heq]
  exact ⟨by simp, rfl⟩

/-- C9 (amended): the committed entry's `raw_seconds` equals the exact
clamped elapsed value `max 0 (now - start_timestamp)` — an integer
whenever the elapsed difference is a whole number of seconds, but a
fraction otherwise (the code stores the float difference unrounded). -/
theorem raw_seconds_exact (fmt : ℚ → String) (now : ℚ) (data : Store)
    (c : Session) (h : data.current = some c) :
    ((stop_current fmt now data).1.history.getLast?).map
        (fun e => e.raw_seconds)
      = some (max 0 (now - c.start_timestamp)) ∧
    ((now - c.start_timestamp).den = 1 →
      ∃ n : ℤ, max 0 (now - c.start_timestamp) = (n : ℚ)) := by
  constructor
  · rw [stop_current_running fmt now data c h]
    simp
  · intro hden
    rcases le_total (now - c.start_timestamp) 0 with h1 | h1
    · exact ⟨0, by rw [max_eq_left h1]; norm_num⟩
    · refine ⟨(now - c.start_timestamp).num, ?_⟩
      rw [max_eq_right h1]
      exact ((Rat.den_eq_one_iff _).mp hden).symm

def exSession9 : Session :=
  { customer := "C", project := "P", start_timestamp := 1000,
    notes := some [] }

def exStore9 : Store := { current := some exSession9, history := [] }

/-- Witness for C9 (amended) at a whole-second elapsed time: stopping at
now = 1060 stores raw_seconds 60, an integer. -/
theorem raw_seconds_exact_witness :
    ((stop_current fmt0 1060 exStore9).1.history.getLast?).map
        (fun e => e.raw_seconds)
      = some (max 0 ((1060 : ℚ) - exSession9.start_timestamp)) ∧
    (∃ n : ℤ, max 0 ((1060 : ℚ) - exSession9.start_timestamp) = (n : ℚ)) :=
  have h := raw_seconds_exact fmt0 1060 exStore9 exSession9 rfl
  ⟨h.1, h.2 (by norm_num [exSession9, Rat.den])⟩

/-- C9 counterexample: stopping half a second after the start
(start_timestamp = 1000, now = 2001/2) commits raw_seconds = 1/2,
whose denominator is 2 — not an integer as the data model declares. -/
theorem raw_seconds_not_integer :
    ((stop_current fmt0 (2001 / 2) exStore9).1.history.map
        (fun e => e.raw_seconds)) = [(1 / 2 : ℚ)] ∧
    ((1 / 2 : ℚ).den ≠ 1) := by
  constructor
  · rw [stop_current_running fmt0 (2001 / 2) exStore9 exSession9 rfl]
    have : max 0 ((2001 / 2 : ℚ) - exSession9.start_timestamp) = 1 / 2 := by
      norm_num [exSession9]
    simp [this, exStore9]
  · norm_num [Rat.den]

/-- C10: when the running session lacks the notes key entirely
(`notes = none`), stopping still succeeds and commits the entry with
notes `[]`, and `cmd_note` initialises the notes list before appending,
yielding exactly the new note. -/
theorem notes_absent_defaults (fmt : ℚ → String) (now : ℚ) (data : Store)
    (c : Session) (args : List String) (h : data.current = some c)
    (hn : c.notes = none) :
    ((stop_current fmt now data).2 = true ∧
     (stop_current fmt now data).1.history.map (fun e => e.notes)
       = data.history.map (fun e => e.notes) ++ [[]]) ∧
    (args ≠ [] → cmd_note args data = .ok { data with
      current := some { c with
        notes := some [String.intercalate " " args] } }) := by
  refine ⟨?_, ?_⟩
  · rw [stop_current_running fmt now data c h]
    simp [hn]
  · intro hne
    have := (cmd_note_spec args data).2.2 c h hne
    rw [this, hn]
    rfl

def exSession10 : Session :=
  { customer := "N", project := "M", start_timestamp := 50, notes := none }

def exStore10 : Store := { current := some exSession10, history := [] }

/-- Witness for C10 on a session without a notes field. -/
theorem notes_absent_defaults_witness :
    ((stop_current fmt0 60 exStore10).2 = true ∧
     (stop_current fmt0 60 exStore10).1.history.map (fun e => e.notes)
       = exStore10.history.map (fun e => e.notes) ++ [[]]) ∧
    cmd_note ["hello", "world"] exStore10 = .ok { exStore10 with
      current := some { exSession10 with
        notes := some [String.intercalate " " ["hello", "world"]] } } :=
  have h := notes_absent_defaults fmt0 60 exStore10 exSession10
    ["hello", "world"] rfl rfl
  ⟨h.1, h.2 (by decide)⟩

/-- Per-character lowercasing over the ASCII letters, the part of Python's
`str.lower()` the report keys exercise. -/
def lowerChar (c : Char) : Char :=
  if 'A' ≤ c ∧ c ≤ 'Z' then Char.ofNat (c.toNat + 32) else c

/-- Model of Python's `str.lower()` (`.lower()` in the sort key of
tt.py line 491). -/
def lowerStr (s : String) : String := ⟨s.data.map lowerChar⟩

/-- Code-point lexicographic strict order on character lists — Python's
string `<`. -/
def charListLt : List Char → List Char → Bool
  | [], [] => false
  | [], _ :: _ => true
  | _ :: _, [] => false
  | a :: as, b :: bs =>
      if a < b then true else if b < a then false else charListLt as bs

/-- Code-point lexicographic non-strict order on character lists —
Python's string `<=`. -/
def charListLE : List Char → List Char → Bool
  | [], _ => true
  | _ :: _, [] => false
  | a :: as, b :: bs =>
      if a < b then true else if b < a then false else charListLE as bs

def strLt (a b : String) : Bool := charListLt a.data b.data

def strLE (a b : String) : Bool := charListLE a.data b.data

/-- Python tuple comparison `(x1, x2) <= (y1, y2)` on string pairs, the
order `sorted` uses on the report keys. -/
def pairLE (x y : String × String) : Bool :=
  if x.1 = y.1 then strLE x.2 y.2 else strLt x.1 y.1

/-- One value of the report's `summary` dict (tt.py lines 443-448):
`{"total_seconds": ..., "tasks": {...}}`.  The tasks dict is an
insertion-ordered association list with unique keys, exactly as a Python
dict iterates. -/
structure GroupInfo where
  total_seconds : ℤ
  tasks : List (String × ℤ)
deriving DecidableEq

/-- The report's `summary` dict keyed by `(customer, project)`, again as
an insertion-ordered association list with unique keys. -/
abbrev Summary := List ((String × String) × GroupInfo)

/-- The task label derived in `process_entry` (tt.py lines 458-462):
`", ".join(notes_list)` when notes exist, else `"No Description"`. -/
def taskLabel (notes_list : List String) : String :=
  match notes_list with
  | [] => "No Description"
  | _ => String.intercalate ", " notes_list

/-- Updating the tasks dict: `tasks[task_name] = tasks.get(task_name, 0)
+ seconds` — an existing key is updated in place, a new key is appended
at the end (Python dict insertion order). -/
def addToTasks (name : String) (secs : ℤ) :
    List (String × ℤ) → List (String × ℤ)
  | [] => [(name, secs)]
  | t :: rest =>
      if t.1 = name then (t.1, t.2 + secs) :: rest
      else t :: addToTasks name secs rest

/-- Updating the summary dict for one entry: create the group on first
sight (appended at the end), then add to its total and its task bucket
in place. -/
def addToSummary (key : String × String) (secs : ℤ) (name : String) :
    Summary → Summary
  | [] => [(key, ⟨secs, [(name, secs)]⟩)]
  | g :: rest =>
      if g.1 = key then
        (g.1, ⟨g.2.total_seconds + secs, addToTasks name secs g.2.tasks⟩)
          :: rest
      else g :: addToSummary key secs name rest

/-- Embedding of the `process_entry` helper (tt.py lines 450-466). -/
def process_entry (cust proj : String) (seconds : ℤ)
    (notes_list : List String) (summary : Summary) : Summary :=
  addToSummary (cust, proj) seconds (taskLabel notes_list) summary

/-- The sort key of tt.py line 491:
`lambda x: (x[0][0].lower(), x[0][1].lower())`. -/
def sortKey (g : (String × String) × GroupInfo) : String × String :=
  (lowerStr g.1.1, lowerStr g.1.2)

def groupLE (a b : (String × String) × GroupInfo) : Bool :=
  pairLE (sortKey a) (sortKey b)

/-- The ordering relation `sorted` sorts the summary items by. -/
def groupRel (a b : (String × String) × GroupInfo) : Prop :=
  groupLE a b = true

instance : DecidableRel groupRel :=
  fun a b => inferInstanceAs (Decidable (groupLE a b = true))

/-- The data `cmd_report` computes before rendering: the sorted group
list, the grand total (`total_day_seconds`), and whether the running
timer was folded in (the "Includes currently running timer" notice). -/
structure Report where
  groups : Summary
  grand_total : ℤ
  includes_running : Bool
deriving DecidableEq

/-- The summary fold of `cmd_report` (tt.py lines 468-487): every history
entry is processed, then the running session, if any, is projected with
`raw = now - start_timestamp`, `billed = round_seconds_to_15min raw` and
processed the same way. -/
def summaryOf (now : ℚ) (data : Store) : Summary :=
  let s := data.history.foldl
    (fun s e => process_entry e.customer e.project e.duration_seconds e.notes s)
    []
  match data.current with
  | some c =>
      process_entry c.customer c.project
        (round_seconds_to_15min (now - c.start_timestamp)) (c.notes.getD []) s
  | none => s

/-- Embedding of the aggregation core of `cmd_report` (tt.py lines
440-538).  Python's `sorted` is a stable sort by the case-insensitive
key; `List.insertionSort` is also stable, and any two stable sorts by
the same total preorder agree, so the model is extensionally the
builtin sort. -/
def cmd_report (now : ℚ) (data : Store) : Report :=
  let sorted_items := (summaryOf now data).insertionSort groupRel
  { groups := sorted_items,
    grand_total := (sorted_items.map (fun g => g.2.total_seconds)).sum,
    includes_running := data.current.isSome }

/-- State-threaded form of a `cmd_report` invocation: the function reads
the store, computes the report, and never writes (`save_json` is not
called anywhere in it), so the persisted store it leaves behind is its
input. -/
def cmd_report_run (now : ℚ) (data : Store) : Store × Report :=
  (data, cmd_report now data)

/-- One aggregation item: the `(customer, project)` key, the billed
seconds added, and the task label derived from the notes. -/
abbrev Item := (String × String) × ℤ × String

def entryItem (e : HistoryEntry) : Item :=
  ((e.customer, e.project), e.duration_seconds, taskLabel e.notes)

/-- The sequence of items `cmd_report` folds: one per history entry in
order, then the projection of the running session, if any. -/
def reportItems (now : ℚ) (data : Store) : List Item :=
  data.history.map entryItem ++
    (match data.current with
     | some c =>
         [((c.customer, c.project),
           round_seconds_to_15min (now - c.start_timestamp),
           taskLabel (c.notes.getD []))]
     | none => [])

/-- Total billed seconds of the items carrying a given group key. -/
def groupSum (items : List Item) (k : String × String) : ℤ :=
  ((items.filter (fun it => decide (it.1 = k))).map (fun it => it.2.1)).sum

/-- Total billed seconds of the items carrying a given group key and
task label. -/
def taskSum (items : List Item) (k : String × String) (t : String) : ℤ :=
  ((items.filter (fun it => decide (it.1 = k ∧ it.2.2 = t))).map
    (fun it => it.2.1)).sum

def stepItem (s : Summary) (it : Item) : Summary :=
  addToSummary it.1 it.2.1 it.2.2 s

lemma summaryOf_eq_foldl (now : ℚ) (data : Store) :
    summaryOf now data = (reportItems now data).foldl stepItem [] := by
  unfold summaryOf reportItems
  cases data.current with
  | none => simp [List.foldl_map, stepItem, process_entry, entryItem]
  | some c =>
      simp [List.foldl_map, List.foldl_append, stepItem, process_entry,
        entryItem]

lemma charListLt_irrefl (as : List Char) : charListLt as as = false := by
  induction as with
  | nil => rfl
  | cons a as ih => simp [charListLt, lt_irrefl, ih]

lemma charListLt_trans (as bs cs : List Char) (h1 : charListLt as bs = true)
    (h2 : charListLt bs cs = true) : charListLt as cs = true := by
  induction as generalizing bs cs with
  | nil =>
      cases bs with
      | nil => simp [charListLt] at h1
      | cons b bs' =>
          cases cs with
          | nil => simp [charListLt] at h2
          | cons c cs' => simp [charListLt]
  | cons a as' ih =>
      cases bs with
      | nil => simp [charListLt] at h1
      | cons b bs' =>
          cases cs with
          | nil => simp [charListLt] at h2
          | cons c cs' =>
              simp only [charListLt] at h1 h2 ⊢
              by_cases hab : a < b
              · by_cases hbc : b < c
                · simp [lt_trans hab hbc]
                · by_cases hcb : c < b
                  · rw [if_neg hbc, if_pos hcb] at h2
                    exact absurd h2 (by simp)
                  · have hbc' : b = c :=
                      le_antisymm (not_lt.mp hcb) (not_lt.mp hbc)
                    subst hbc'
                    simp [hab]
              · by_cases hba : b < a
                · rw [if_neg hab, if_pos hba] at h1
                  exact absurd h1 (by simp)
                · have hab' : a = b :=
                    le_antisymm (not_lt.mp hba) (not_lt.mp hab)
                  subst hab'
                  rw [if_neg (lt_irrefl a), if_neg (lt_irrefl a)] at h1
                  by_cases hac : a < c
                  · simp [hac]
                  · by_cases hca : c < a
                    · rw [if_neg hac, if_pos hca] at h2
                      exact absurd h2 (by simp)
                    · have hac' : a = c :=
                        le_antisymm (not_lt.mp hca) (not_lt.mp hac)
                      subst hac'
                      rw [if_neg (lt_irrefl a), if_neg (lt_irrefl a)] at h2 ⊢
                      exact ih bs' cs' h1 h2

lemma charListLt_asymm (as bs : List Char) (h1 : charListLt as bs = true)
    (h2 : charListLt bs as = true) : False := by
  have h := charListLt_trans as bs as h1 h2
  rw [charListLt_irrefl] at h
  exact Bool.noConfusion h

lemma charListLt_connex (as bs : List Char) (h : as ≠ bs) :
    (charListLt as bs || charListLt bs as) = true := by
  induction as generalizing bs with
  | nil =>
      cases bs with
      | nil => exact absurd rfl h
      | cons b bs' => simp [charListLt]
  | cons a as' ih =>
      cases bs with
      | nil => simp [charListLt]
      | cons b bs' =>
          by_cases hab : a < b
          · simp [charListLt, hab]
          · by_cases hba : b < a
            · simp [charListLt, hab, hba]
            · have hab' : a = b := le_antisymm (not_lt.mp hba) (not_lt.mp hab)
              subst hab'
              have hne : as' ≠ bs' := fun he => h (by rw [he])
              simpa [charListLt, lt_irrefl] using ih bs' hne

lemma charListLE_trans (as bs cs : List Char) (h1 : charListLE as bs = true)
    (h2 : charListLE bs cs = true) : charListLE as cs = true := by
  induction as generalizing bs cs with
  | nil => simp [charListLE]
  | cons a as' ih =>
      cases bs with
      | nil => simp [charListLE] at h1
      | cons b bs' =>
          cases cs with
          | nil => simp [charListLE] at h2
          | cons c cs' =>
              simp only [charListLE] at h1 h2 ⊢
              by_cases hab : a < b
              · by_cases hbc : b < c
                · simp [lt_trans hab hbc]
                · by_cases hcb : c < b
                  · rw [if_neg hbc, if_pos hcb] at h2
                    exact absurd h2 (by simp)
                  · have hbc' : b = c :=
                      le_antisymm (not_lt.mp hcb) (not_lt.mp hbc)
                    subst hbc'
                    simp [hab]
              · by_cases hba : b < a
                · rw [if_neg hab, if_pos hba] at h1
                  exact absurd h1 (by simp)
                · have hab' : a = b :=
                    le_antisymm (not_lt.mp hba) (not_lt.mp hab)
                  subst hab'
                  rw [if_neg (lt_irrefl a), if_neg (lt_irrefl a)] at h1
                  by_cases hac : a < c
                  · simp [hac]
                  · by_cases hca : c < a
                    · rw [if_neg hac, if_pos hca] at h2
                      exact absurd h2 (by simp)
                    · have hac' : a = c :=
                        le_antisymm (not_lt.mp hca) (not_lt.mp hac)
                      subst hac'
                      rw [if_neg (lt_irrefl a), if_neg (lt_irrefl a)] at h2 ⊢
                      exact ih bs' cs' h1 h2

lemma charListLE_total (as bs : List Char) :
    (charListLE as bs || charListLE bs as) = true := by
  induction as generalizing bs with
  | nil => simp [charListLE]
  | cons a as' ih =>
      cases bs with
      | nil => simp [charListLE]
      | cons b bs' =>
          by_cases hab : a < b
          · simp [charListLE, hab]
          · by_cases hba : b < a
            · simp [charListLE, hab, hba]
            · have hab' : a = b := le_antisymm (not_lt.mp hba) (not_lt.mp hab)
              subst hab'
              simpa [charListLE, lt_irrefl] using ih bs'

lemma string_data_inj {a b : String} (h : a.data = b.data) : a = b := by
  cases a; cases b; exact congrArg String.mk h

lemma strLE_trans (a b c : String) (h1 : strLE a b = true)
    (h2 : strLE b c = true) : strLE a c = true :=
  charListLE_trans _ _ _ h1 h2

lemma strLE_total (a b : String) : (strLE a b || strLE b a) = true :=
  charListLE_total _ _

lemma strLt_trans (a b c : String) (h1 : strLt a b = true)
    (h2 : strLt b c = true) : strLt a c = true :=
  charListLt_trans _ _ _ h1 h2

lemma strLt_asymm (a b : String) (h1 : strLt a b = true)
    (h2 : strLt b a = true) : False :=
  charListLt_asymm _ _ h1 h2

lemma strLt_connex (a b : String) (h : a ≠ b) :
    (strLt a b || strLt b a) = true :=
  charListLt_connex _ _ (fun hd => h (string_data_inj hd))

lemma pairLE_trans (x y z : String × String) (h1 : pairLE x y = true)
    (h2 : pairLE y z = true) : pairLE x z = true := by
  unfold pairLE at h1 h2 ⊢
  by_cases hxy : x.1 = y.1
  · rw [if_pos hxy] at h1
    by_cases hyz : y.1 = z.1
    · rw [if_pos hyz] at h2
      rw [if_pos (hxy.trans hyz)]
      exact strLE_trans _ _ _ h1 h2
    · rw [if_neg hyz] at h2
      have hxz : ¬ x.1 = z.1 := fun he => hyz (hxy.symm.trans he)
      rw [if_neg hxz, hxy]
      exact h2
  · rw [if_neg hxy] at h1
    by_cases hyz : y.1 = z.1
    · have hxz : ¬ x.1 = z.1 := fun he => hxy (he.trans hyz.symm)
      rw [if_neg hxz]
      exact hyz ▸ h1
    · rw [if_neg hyz] at h2
      have hxz : ¬ x.1 = z.1 := by
        intro he
        exact strLt_asymm _ _ (he ▸ h1) h2
      rw [if_neg hxz]
      exact strLt_trans _ _ _ h1 h2

lemma pairLE_total (x y : String × String) :
    (pairLE x y || pairLE y x) = true := by
  unfold pairLE
  by_cases hxy : x.1 = y.1
  · rw [if_pos hxy, if_pos hxy.symm]
    exact strLE_total _ _
  · rw [if_neg hxy, if_neg (fun he => hxy he.symm)]
    exact strLt_connex _ _ hxy

instance : IsTrans ((String × String) × GroupInfo) groupRel where
  trans _ _ _ h1 h2 := pairLE_trans _ _ _ h1 h2

instance : IsTotal ((String × String) × GroupInfo) groupRel where
  total a b := by
    rcases Bool.or_eq_true_iff.mp (pairLE_total (sortKey a) (sortKey b)) with h | h
    · exact Or.inl h
    · exact Or.inr h

/-- Association-list analogue of the Python dict indexing
`summary[key]["tasks"].get(name)`. -/
def lookupTask (tasks : List (String × ℤ)) (t : String) : Option ℤ :=
  (tasks.find? (fun tv => decide (tv.1 = t))).map (fun tv => tv.2)

/-- Association-list analogue of the Python dict indexing
`summary.get(key)`. -/
def lookupGroup (s : Summary) (k : String × String) : Option GroupInfo :=
  (s.find? (fun g => decide (g.1 = k))).map (fun g => g.2)

lemma lookupTask_cons_self (tv : String × ℤ) (rest : List (String × ℤ))
    (t : String) (h : tv.1 = t) :
    lookupTask (tv :: rest) t = some tv.2 := by
  simp [lookupTask, List.find?_cons, h]

lemma lookupTask_cons_ne (tv : String × ℤ) (rest : List (String × ℤ))
    (t : String) (h : ¬ tv.1 = t) :
    lookupTask (tv :: rest) t = lookupTask rest t := by
  simp [lookupTask, List.find?_cons, h]

lemma lookupTask_addToTasks_self (name : String) (secs : ℤ)
    (tasks : List (String × ℤ)) :
    lookupTask (addToTasks name secs tasks) name
      = some ((lookupTask tasks name).getD 0 + secs) := by
  induction tasks with
  | nil => simp [addToTasks, lookupTask]
  | cons t rest ih =>
      by_cases h : t.1 = name
      · simp only [addToTasks, if_pos h]
        rw [lookupTask_cons_self (t.1, t.2 + secs) rest name h,
            lookupTask_cons_self t rest name h]
        rfl
      · simp only [addToTasks, if_neg h]
        rw [lookupTask_cons_ne t (addToTasks name secs rest) name h,
            lookupTask_cons_ne t rest name h]
        exact ih

lemma lookupTask_addToTasks_other (name : String) (secs : ℤ) (t : String)
    (tasks : List (String × ℤ)) (hne : t ≠ name) :
    lookupTask (addToTasks name secs tasks) t = lookupTask tasks t := by
  induction tasks with
  | nil =>
      have h1 : ¬ (name = t) := fun he => hne he.symm
      simp [addToTasks, lookupTask, h1]
  | cons tv rest ih =>
      by_cases h : tv.1 = name
      · have h2 : ¬ (tv.1 = t) := fun he => hne (he.symm.trans h)
        simp only [addToTasks, if_pos h]
        rw [lookupTask_cons_ne (tv.1, tv.2 + secs) rest t h2,
            lookupTask_cons_ne tv rest t h2]
      · by_cases h2 : tv.1 = t
        · simp only [addToTasks, if_neg h]
          rw [lookupTask_cons_self tv (addToTasks name secs rest) t h2,
              lookupTask_cons_self tv rest t h2]
        · simp only [addToTasks, if_neg h]
          rw [lookupTask_cons_ne tv (addToTasks name secs rest) t h2,
              lookupTask_cons_ne tv rest t h2]
          exact ih

lemma addToTasks_keys (name : String) (secs : ℤ)
    (tasks : List (String × ℤ)) :
    (addToTasks name secs tasks).map Prod.fst =
      if name ∈ tasks.map Prod.fst then tasks.map Prod.fst
      else tasks.map Prod.fst ++ [name] := by
  induction tasks with
  | nil => simp [addToTasks]
  | cons t rest ih =>
      by_cases h : t.1 = name
      · simp [addToTasks, h]
      · have hne : ¬ name = t.1 := fun he => h he.symm
        by_cases hm : name ∈ rest.map Prod.fst
        · simp [addToTasks, h, ih, hm, hne]
        · simp [addToTasks, h, ih, hm, hne]

lemma nodup_keys_addToTasks (name : String) (secs : ℤ)
    (tasks : List (String × ℤ)) (h : (tasks.map Prod.fst).Nodup) :
    ((addToTasks name secs tasks).map Prod.fst).Nodup := by
  rw [addToTasks_keys]
  split
  · exact h
  · next hni =>
      exact List.nodup_append.mpr ⟨h, List.nodup_singleton _,
        fun a ha ha' => hni ((List.mem_singleton.mp ha') ▸ ha)⟩

lemma lookupGroup_cons_self (g : (String × String) × GroupInfo) (rest : Summary)
    (k : String × String) (h : g.1 = k) :
    lookupGroup (g :: rest) k = some g.2 := by
  simp [lookupGroup, List.find?_cons, h]

lemma lookupGroup_cons_ne (g : (String × String) × GroupInfo) (rest : Summary)
    (k : String × String) (h : ¬ g.1 = k) :
    lookupGroup (g :: rest) k = lookupGroup rest k := by
  simp [lookupGroup, List.find?_cons, h]

lemma lookupGroup_addToSummary_self (key : String × String) (secs : ℤ)
    (name : String) (s : Summary) :
    lookupGroup (addToSummary key secs name s) key =
      some (match lookupGroup s key with
            | some info =>
                ⟨info.total_seconds + secs, addToTasks name secs info.tasks⟩
            | none => ⟨secs, [(name, secs)]⟩) := by
  induction s with
  | nil => simp [addToSummary, lookupGroup]
  | cons g rest ih =>
      by_cases h : g.1 = key
      · simp only [addToSummary, if_pos h]
        rw [lookupGroup_cons_self
              (g.1, ⟨g.2.total_seconds + secs, addToTasks name secs g.2.tasks⟩)
              rest key h,
            lookupGroup_cons_self g rest key h]
      · simp only [addToSummary, if_neg h]
        rw [lookupGroup_cons_ne g (addToSummary key secs name rest) key h,
            lookupGroup_cons_ne g rest key h]
        exact ih

lemma lookupGroup_addToSummary_other (key : String × String) (secs : ℤ)
    (name : String) (k : String × String) (s : Summary) (hne : k ≠ key) :
    lookupGroup (addToSummary key secs name s) k = lookupGroup s k := by
  induction s with
  | nil =>
      have h1 : ¬ (key = k) := fun he => hne he.symm
      simp [addToSummary, lookupGroup, h1]
  | cons g rest ih =>
      by_cases h : g.1 = key
      · have h2 : ¬ (g.1 = k) := fun he => hne (he.symm.trans h)
        simp only [addToSummary, if_pos h]
        rw [lookupGroup_cons_ne
              (g.1, ⟨g.2.total_seconds + secs, addToTasks name secs g.2.tasks⟩)
              rest k h2,
            lookupGroup_cons_ne g rest k h2]
      · by_cases h2 : g.1 = k
        · simp only [addToSummary, if_neg h]
          rw [lookupGroup_cons_self g (addToSummary key secs name rest) k h2,
              lookupGroup_cons_self g rest k h2]
        · simp only [addToSummary, if_neg h]
          rw [lookupGroup_cons_ne g (addToSummary key secs name rest) k h2,
              lookupGroup_cons_ne g rest k h2]
          exact ih

lemma addToSummary_keys (key : String × String) (secs : ℤ) (name : String)
    (s : Summary) :
    (addToSummary key secs name s).map Prod.fst =
      if key ∈ s.map Prod.fst then s.map Prod.fst
      else s.map Prod.fst ++ [key] := by
  induction s with
  | nil => simp [addToSummary]
  | cons g rest ih =>
      by_cases h : g.1 = key
      · simp [addToSummary, h]
      · have hne : ¬ key = g.1 := fun he => h he.symm
        by_cases hm : key ∈ rest.map Prod.fst
        · simp [addToSummary, h, ih, hm, hne]
        · simp [addToSummary, h, ih, hm, hne]

lemma nodup_keys_addToSummary (key : String × String) (secs : ℤ)
    (name : String) (s : Summary) (h : (s.map Prod.fst).Nodup) :
    ((addToSummary key secs name s).map Prod.fst).Nodup := by
  rw [addToSummary_keys]
  split
  · exact h
  · next hni =>
      exact List.nodup_append.mpr ⟨h, List.nodup_singleton _,
        fun a ha ha' => hni ((List.mem_singleton.mp ha') ▸ ha)⟩

lemma mem_of_lookupTask (tasks : List (String × ℤ)) (t : String) (v : ℤ)
    (h : lookupTask tasks t = some v) : (t, v) ∈ tasks := by
  unfold lookupTask at h
  cases hf : tasks.find? (fun tv => decide (tv.1 = t)) with
  | none => rw [hf] at h; simp at h
  | some tv =>
      rw [hf] at h
      simp only [Option.map_some'] at h
      have h1 : tv.1 = t := by simpa using List.find?_some hf
      have h2 := List.mem_of_find?_eq_some hf
      have h3 : tv = (t, v) := by
        cases tv
        simp only [Option.some.injEq] at h
        simp_all
      rwa [h3] at h2

lemma lookupTask_eq_of_mem (tasks : List (String × ℤ))
    (tv : String × ℤ) (hnd : (tasks.map Prod.fst).Nodup) (hm : tv ∈ tasks) :
    lookupTask tasks tv.1 = some tv.2 := by
  induction tasks with
  | nil => simp at hm
  | cons t rest ih =>
      rcases List.mem_cons.mp hm with rfl | hm'
      · exact lookupTask_cons_self tv rest tv.1 rfl
      · have hnd' := List.nodup_cons.mp (List.map_cons Prod.fst t rest ▸ hnd)
        have hne : ¬ (t.1 = tv.1) := by
          intro he
          exact hnd'.1 (he ▸ List.mem_map_of_mem Prod.fst hm')
        rw [lookupTask_cons_ne t rest tv.1 hne]
        exact ih hnd'.2 hm'

lemma mem_of_lookupGroup (s : Summary) (k : String × String)
    (info : GroupInfo) (h : lookupGroup s k = some info) : (k, info) ∈ s := by
  unfold lookupGroup at h
  cases hf : s.find? (fun g => decide (g.1 = k)) with
  | none => rw [hf] at h; simp at h
  | some g =>
      rw [hf] at h
      simp only [Option.map_some'] at h
      have h1 : g.1 = k := by simpa using List.find?_some hf
      have h2 := List.mem_of_find?_eq_some hf
      have h3 : g = (k, info) := by
        cases g
        simp only [Option.some.injEq] at h
        simp_all
      rwa [h3] at h2

lemma lookupGroup_eq_of_mem (s : Summary) (g : (String × String) × GroupInfo)
    (hnd : (s.map Prod.fst).Nodup) (hm : g ∈ s) :
    lookupGroup s g.1 = some g.2 := by
  induction s with
  | nil => simp at hm
  | cons g' rest ih =>
      rcases List.mem_cons.mp hm with rfl | hm'
      · exact lookupGroup_cons_self g rest g.1 rfl
      · have hnd' := List.nodup_cons.mp (List.map_cons Prod.fst g' rest ▸ hnd)
        have hne : ¬ (g'.1 = g.1) := by
          intro he
          exact hnd'.1 (he ▸ List.mem_map_of_mem Prod.fst hm')
        rw [lookupGroup_cons_ne g' rest g.1 hne]
        exact ih hnd'.2 hm'

lemma groupSum_append_one (items : List Item) (it : Item)
    (k : String × String) :
    groupSum (items ++ [it]) k
      = groupSum items k + (if it.1 = k then it.2.1 else 0) := by
  unfold groupSum
  rw [List.filter_append, List.map_append, List.sum_append]
  by_cases h : it.1 = k <;> simp [h]

lemma taskSum_append_one (items : List Item) (it : Item)
    (k : String × String) (t : String) :
    taskSum (items ++ [it]) k t
      = taskSum items k t + (if it.1 = k ∧ it.2.2 = t then it.2.1 else 0) := by
  unfold taskSum
  rw [List.filter_append, List.map_append, List.sum_append]
  by_cases h : it.1 = k ∧ it.2.2 = t <;> simp [h]

lemma groupSum_eq_zero (items : List Item) (k : String × String)
    (h : ∀ it ∈ items, it.1 ≠ k) : groupSum items k = 0 := by
  have hf : items.filter (fun it => decide (it.1 = k)) = [] := by
    rw [List.filter_eq_nil_iff]
    intro it hit
    simp [h it hit]
  unfold groupSum
  rw [hf]
  rfl

lemma taskSum_eq_zero (items : List Item) (k : String × String) (t : String)
    (h : ∀ it ∈ items, it.1 = k → it.2.2 ≠ t) : taskSum items k t = 0 := by
  have hf : items.filter (fun it => decide (it.1 = k ∧ it.2.2 = t)) = [] := by
    rw [List.filter_eq_nil_iff]
    intro it hit
    simp only [decide_eq_true_eq]
    rintro ⟨h1, h2⟩
    exact h it hit h1 h2
  unfold taskSum
  rw [hf]
  rfl

lemma mem_addToSummary (key : String × String) (secs : ℤ) (name : String)
    (s : Summary) (g' : (String × String) × GroupInfo)
    (hg' : g' ∈ addToSummary key secs name s) :
    g' ∈ s ∨ g'.2 = ⟨secs, [(name, secs)]⟩ ∨
      ∃ info, (key, info) ∈ s ∧
        g'.2 = ⟨info.total_seconds + secs, addToTasks name secs info.tasks⟩ := by
  induction s with
  | nil =>
      simp only [addToSummary, List.mem_singleton] at hg'
      subst hg'
      right; left; rfl
  | cons g rest ih =>
      by_cases h : g.1 = key
      · simp only [addToSummary, if_pos h] at hg'
        rcases List.mem_cons.mp hg' with rfl | hm
        · right; right
          refine ⟨g.2, ?_, rfl⟩
          rw [← h]
          exact List.mem_cons_self _ _
        · left; exact List.mem_cons_of_mem _ hm
      · simp only [addToSummary, if_neg h] at hg'
        rcases List.mem_cons.mp hg' with rfl | hm
        · left; exact List.mem_cons_self _ _
        · rcases ih hm with h1 | h2 | ⟨info, hi, he⟩
          · left; exact List.mem_cons_of_mem _ h1
          · right; left; exact h2
          · right; right; exact ⟨info, List.mem_cons_of_mem _ hi, he⟩

/-- The invariant the summary fold maintains: keys are unique at both
levels, every processed item is represented, a group's total is the sum
of the billed seconds of the processed items with its key, and a task
bucket's value is the sum over the items with its key and label. -/
def SummaryInv (items : List Item) (s : Summary) : Prop :=
  (s.map Prod.fst).Nodup ∧
  (∀ g ∈ s, (g.2.tasks.map Prod.fst).Nodup) ∧
  (∀ k, lookupGroup s k = none → ∀ it ∈ items, it.1 ≠ k) ∧
  (∀ k info, lookupGroup s k = some info →
    info.total_seconds = groupSum items k ∧
    (∀ t, lookupTask info.tasks t = none →
      ∀ it ∈ items, it.1 = k → it.2.2 ≠ t) ∧
    (∀ t v, lookupTask info.tasks t = some v → v = taskSum items k t))

lemma summaryInv_step (items : List Item) (s : Summary) (it : Item)
    (h : SummaryInv items s) : SummaryInv (items ++ [it]) (stepItem s it) := by
  obtain ⟨hnd, htasks, hnone, hsome⟩ := h
  refine ⟨?_, ?_, ?_, ?_⟩
  · exact nodup_keys_addToSummary _ _ _ _ hnd
  · intro g' hg'
    rcases mem_addToSummary _ _ _ _ _ hg' with hm | he | ⟨info, hi, he⟩
    · exact htasks g' hm
    · rw [he]
      simp
    · rw [he]
      exact nodup_keys_addToTasks _ _ _ (htasks (it.1, info) hi)
  · intro k hk it' hit'
    by_cases hkey : k = it.1
    · exfalso
      rw [hkey] at hk
      rw [stepItem, lookupGroup_addToSummary_self] at hk
      exact Option.noConfusion hk
    · rw [stepItem, lookupGroup_addToSummary_other _ _ _ _ _ hkey] at hk
      rcases List.mem_append.mp hit' with hmem | hmem
      · exact hnone k hk it' hmem
      · have he : it' = it := by simpa using hmem
        rw [he]
        exact fun hc => hkey hc.symm
  · intro k info' hk
    by_cases hkey : k = it.1
    · subst hkey
      rw [stepItem, lookupGroup_addToSummary_self] at hk
      have hinfo' := Option.some.inj hk
      cases hbase : lookupGroup s it.1 with
      | none =>
          rw [hbase] at hinfo'
          have hno : ∀ it' ∈ items, it'.1 ≠ it.1 := hnone it.1 hbase
          refine ⟨?_, ?_, ?_⟩
          · rw [← hinfo', groupSum_append_one,
              groupSum_eq_zero items it.1 hno, if_pos rfl]
            ring
          · intro t ht it' hit' hik
            rw [← hinfo'] at ht
            have htn : ¬ (it.2.2 = t) := by
              intro he
              rw [lookupTask_cons_self (it.2.2, it.2.1) [] t he] at ht
              exact Option.noConfusion ht
            rcases List.mem_append.mp hit' with hm | hm
            · exact absurd hik (hno it' hm)
            · have he : it' = it := by simpa using hm
              rw [he]
              exact htn
          · intro t v hv
            rw [← hinfo'] at hv
            by_cases he : it.2.2 = t
            · rw [lookupTask_cons_self (it.2.2, it.2.1) [] t he] at hv
              have hv' := Option.some.inj hv
              rw [taskSum_append_one,
                taskSum_eq_zero items it.1 t
                  (fun it' hm hik => absurd hik (hno it' hm)),
                if_pos ⟨rfl, he⟩, ← hv']
              ring
            · rw [lookupTask_cons_ne (it.2.2, it.2.1) [] t he] at hv
              simp [lookupTask] at hv
      | some info =>
          rw [hbase] at hinfo'
          obtain ⟨htotal, hnonet, hsomet⟩ := hsome it.1 info hbase
          refine ⟨?_, ?_, ?_⟩
          · rw [← hinfo', groupSum_append_one, ← htotal, if_pos rfl]
          · intro t ht it' hit' hik
            rw [← hinfo'] at ht
            have htn : ¬ (t = it.2.2) := by
              intro he
              rw [he, lookupTask_addToTasks_self] at ht
              exact Option.noConfusion ht
            rw [lookupTask_addToTasks_other _ _ _ _ htn] at ht
            rcases List.mem_append.mp hit' with hm | hm
            · exact hnonet t ht it' hm hik
            · have he : it' = it := by simpa using hm
              rw [he]
              exact fun hc => htn hc.symm
          · intro t v hv
            rw [← hinfo'] at hv
            by_cases he : t = it.2.2
            · subst he
              rw [lookupTask_addToTasks_self] at hv
              have hv' := Option.some.inj hv
              rw [taskSum_append_one, if_pos ⟨rfl, rfl⟩]
              cases hbt : lookupTask info.tasks it.2.2 with
              | none =>
                  rw [hbt] at hv'
                  rw [taskSum_eq_zero items it.1 it.2.2 (hnonet it.2.2 hbt),
                    ← hv']
                  simp
              | some w =>
                  rw [hbt] at hv'
                  rw [← hv', hsomet it.2.2 w hbt]
                  simp
            · rw [lookupTask_addToTasks_other _ _ _ _ he] at hv
              rw [taskSum_append_one, if_neg (fun hc => he hc.2.symm), add_zero]
              exact hsomet t v hv
    · rw [stepItem, lookupGroup_addToSummary_other _ _ _ _ _ hkey] at hk
      obtain ⟨htotal, hnonet, hsomet⟩ := hsome k info' hk
      have hne : it.1 ≠ k := fun he => hkey he.symm
      refine ⟨?_, ?_, ?_⟩
      · rw [groupSum_append_one, if_neg hne, add_zero]
        exact htotal
      · intro t ht it' hit' hik
        rcases List.mem_append.mp hit' with hm | hm
        · exact hnonet t ht it' hm hik
        · have he : it' = it := by simpa using hm
          rw [he] at hik
          exact absurd hik hne
      · intro t v hv
        rw [taskSum_append_one, if_neg (fun hc => hne hc.1), add_zero]
        exact hsomet t v hv

lemma summaryInv_foldl (items : List Item) :
    SummaryInv items (items.foldl stepItem []) := by
  induction items using List.reverseRecOn with
  | nil =>
      refine ⟨List.nodup_nil, by simp, ?_, ?_⟩
      · intro k hk it hit
        simp at hit
      · intro k info hk
        simp [lookupGroup] at hk
  | append_singleton l a ih =>
      rw [List.foldl_append]
      simpa using summaryInv_step l _ a ih

/-- C6: every group the report produces is keyed by a unique
`(customer, project)` pair; its total is the sum of the billed seconds of
the folded items (history entries, plus the projected running session)
with that key; each folded item's key has a group and its notes-derived
label (`", "`-join, or `"No Description"` for empty notes) has a bucket
there; and each label owns a single bucket holding the sum of the billed
seconds of the items with that key and label. -/
theorem report_aggregation_correct (now : ℚ) (data : Store) :
    ((cmd_report now data).groups.map Prod.fst).Nodup ∧
    (∀ it ∈ reportItems now data,
      it.1 ∈ (cmd_report now data).groups.map Prod.fst) ∧
    (∀ g ∈ (cmd_report now data).groups,
      (g.2.tasks.map Prod.fst).Nodup ∧
      g.2.total_seconds = groupSum (reportItems now data) g.1 ∧
      (∀ it ∈ reportItems now data, it.1 = g.1 →
        it.2.2 ∈ g.2.tasks.map Prod.fst) ∧
      (∀ tv ∈ g.2.tasks, tv.2 = taskSum (reportItems now data) g.1 tv.1)) := by
  have hinv := summaryInv_foldl (reportItems now data)
  rw [← summaryOf_eq_foldl] at hinv
  obtain ⟨hnd, htasks, hnone, hsome⟩ := hinv
  have hperm : ((cmd_report now data).groups).Perm (summaryOf now data) :=
    List.perm_insertionSort groupRel _
  have hkeysperm := hperm.map Prod.fst
  refine ⟨hkeysperm.nodup_iff.mpr hnd, ?_, ?_⟩
  · intro it hit
    cases hg : lookupGroup (summaryOf now data) it.1 with
    | none => exact absurd rfl (hnone it.1 hg it hit)
    | some info =>
        have hm := mem_of_lookupGroup _ _ _ hg
        exact hkeysperm.mem_iff.mpr (List.mem_map_of_mem Prod.fst hm)
  · intro g hg
    have hgs : g ∈ summaryOf now data := hperm.mem_iff.mp hg
    have hlook : lookupGroup (summaryOf now data) g.1 = some g.2 :=
      lookupGroup_eq_of_mem _ _ hnd hgs
    obtain ⟨htotal, hnonet, hsomet⟩ := hsome g.1 g.2 hlook
    refine ⟨htasks g hgs, htotal, ?_, ?_⟩
    · intro it hit hik
      cases hbt : lookupTask g.2.tasks it.2.2 with
      | none => exact absurd rfl (hnonet it.2.2 hbt it hit hik)
      | some v =>
          exact List.mem_map_of_mem Prod.fst (mem_of_lookupTask _ _ _ hbt)
    · intro tv htv
      exact hsomet tv.1 tv.2 (lookupTask_eq_of_mem _ _ (htasks g hgs) htv)

def exEntry6a : HistoryEntry :=
  { customer := "Acme", project := "Web", duration_seconds := 900,
    raw_seconds := 900, notes := ["Bug fix"], start_str := "09:00",
    end_str := "09:15" }

def exEntry6b : HistoryEntry :=
  { customer := "Acme", project := "Web", duration_seconds := 900,
    raw_seconds := 900, notes := ["Bug fix"], start_str := "10:00",
    end_str := "10:15" }

def exStore6 : Store := { current := none, history := [exEntry6a, exEntry6b] }

/-- Witness for C6: two entries for ("Acme", "Web") with the same label
land in one group whose item sum is 1800. -/
theorem report_aggregation_correct_witness :
    ("Acme", "Web") ∈ (cmd_report 0 exStore6).groups.map Prod.fst ∧
    groupSum (reportItems 0 exStore6) ("Acme", "Web") = 1800 ∧
    taskSum (reportItems 0 exStore6) ("Acme", "Web") "Bug fix" = 1800 :=
  ⟨(report_aggregation_correct 0 exStore6).2.1 (entryItem exEntry6a)
    (by simp [reportItems, exStore6]),
   by decide, by decide⟩

def exEntry7a : HistoryEntry :=
  { customer := "beta", project := "x", duration_seconds := 900,
    raw_seconds := 900, notes := [], start_str := "09:00",
    end_str := "09:15" }

def exEntry7b : HistoryEntry :=
  { customer := "Acme", project := "y", duration_seconds := 900,
    raw_seconds := 900, notes := [], start_str := "10:00",
    end_str := "10:15" }

def exStore7 : Store := { current := none, history := [exEntry7a, exEntry7b] }

/-- C7: the group list is sorted ascending by the pair of lower-cased
customer and lower-cased project; in particular entries for ("beta","x")
and ("Acme","y") put the Acme group before the beta group. -/
theorem report_groups_sorted (now : ℚ) (data : Store) :
    List.Pairwise groupRel (cmd_report now data).groups ∧
    (cmd_report 0 exStore7).groups.map Prod.fst
      = [("Acme", "y"), ("beta", "x")] := by
  refine ⟨?_, ?_⟩
  · have h := List.sorted_insertionSort groupRel (summaryOf now data)
    simpa [cmd_report] using h
  · decide

/-- Witness for C7 at the spec's example store. -/
theorem report_groups_sorted_witness :
    List.Pairwise groupRel (cmd_report 0 exStore7).groups ∧
    (cmd_report 0 exStore7).groups.map Prod.fst
      = [("Acme", "y"), ("beta", "x")] :=
  ⟨(report_groups_sorted 0 exStore7).1, (report_groups_sorted 0 exStore7).2⟩

/-- C8: aggregation is a pure function of the pair (store, now): the
invocation leaves the persisted store untouched (the running session is
only projected, never committed), reports `includes_running = true` when
a session is active, and a second invocation on the store the first one
left behind produces the identical report. -/
theorem report_pure_readonly (now : ℚ) (data : Store)
    (h : data.current.isSome = true) :
    (cmd_report_run now data).1 = data ∧
    (cmd_report_run now data).2.includes_running = true ∧
    (cmd_report_run now ((cmd_report_run now data).1)).2
      = (cmd_report_run now data).2 := by
  refine ⟨rfl, ?_, rfl⟩
  simp [cmd_report_run, cmd_report, h]

def exSession8 : Session :=
  { customer := "Beta", project := "App", start_timestamp := 1100,
    notes := some ["In progress"] }

def exStore8 : Store := { current := some exSession8, history := [] }

/-- Witness for C8 on a store with an active session. -/
theorem report_pure_readonly_witness :
    (cmd_report_run 2000 exStore8).1 = exStore8 ∧
    (cmd_report_run 2000 exStore8).2.includes_running = true ∧
    (cmd_report_run 2000 ((cmd_report_run 2000 exStore8).1)).2
      = (cmd_report_run 2000 exStore8).2 :=
  report_pure_readonly 2000 exStore8 rfl

end TT
